import Mathlib

/-!
Verification of the TON wallet / smart-contract engine of this repository
(src/src/services/ton.ts) against its natural-language specification.

The engine is shallowly embedded: cells are binary trees of bits and child
references, builders accumulate bits and references exactly in the order the
source appends them, and each service method that the claims touch is
translated into an executable Lean function.  Network and cryptographic
collaborators (the RPC client, mnemonicToPrivateKey, sha256, the @ton/ton
dictionary parser) are passed in as explicit oracle parameters, so every
function is pure and every statement is about the source's own control flow
and encodings.  JavaScript strings are modelled at the level of their
characters (UTF-16 code units / Unicode code points) where the distinction
matters.
-/

deriving instance DecidableEq for Except

/-! ## Bits, bytes and primitive cell encodings -/

/-- Big-endian encoding of the low `n` bits of `v`: the bit pattern that the
builder's `storeUint(v, n)` appends. -/
def encodeUint (v n : Nat) : List Bool :=
  (List.range n).map (fun i => v.testBit (n - 1 - i))

/-- Number of bytes used by `storeCoins` for value `v` (minimal-length
byte encoding, 0 bytes for the value 0). -/
def coinBytes (v : Nat) : Nat :=
  if v = 0 then 0 else Nat.log2 v / 8 + 1

/-- `storeCoins`: a 4-bit byte-length followed by that many bytes of the
value, big-endian (TON VarUInteger 16). -/
def encodeCoins (v : Nat) : List Bool :=
  encodeUint (coinBytes v) 4 ++ encodeUint v (8 * coinBytes v)

/-- A parsed TON address: workchain and 256-bit account hash
(the payload of the `Address` objects produced by `Address.parse`). -/
structure Addr where
  workchain : Int
  hash : Nat
deriving DecidableEq

/-- `storeAddress` on a parsed internal address: tag bits `10` (addr_std),
one anycast bit `0`, an 8-bit workchain and the 256-bit hash. -/
def encodeAddr (a : Addr) : List Bool :=
  [true, false, false] ++ encodeUint (a.workchain % 256).toNat 8 ++ encodeUint a.hash 256

/-- A TON cell: a bit string together with child cell references. -/
inductive Cell where
  | mk (bits : List Bool) (refs : List Cell)

def Cell.bits : Cell → List Bool
  | .mk b _ => b

def Cell.refs : Cell → List Cell
  | .mk _ r => r

mutual

def cellEq : Cell → Cell → Bool
  | .mk b1 r1, .mk b2 r2 => b1 == b2 && cellListEq r1 r2

def cellListEq : List Cell → List Cell → Bool
  | [], [] => true
  | c :: cs, d :: ds => cellEq c d && cellListEq cs ds
  | _, _ => false

end

instance : BEq Cell := ⟨cellEq⟩

mutual

theorem cellEq_iff : ∀ c d : Cell, cellEq c d = true ↔ c = d
  | .mk b1 r1, .mk b2 r2 => by
    simp only [cellEq, Bool.and_eq_true, beq_iff_eq, Cell.mk.injEq]
    exact and_congr Iff.rfl (cellListEq_iff r1 r2)

theorem cellListEq_iff : ∀ cs ds : List Cell, cellListEq cs ds = true ↔ cs = ds
  | [], [] => by simp [cellListEq]
  | c :: cs, d :: ds => by
    simp only [cellListEq, Bool.and_eq_true, List.cons.injEq]
    exact and_congr (cellEq_iff c d) (cellListEq_iff cs ds)
  | [], _ :: _ => by simp [cellListEq]
  | _ :: _, [] => by simp [cellListEq]

end

instance : DecidableEq Cell := fun c d =>
  decidable_of_iff (cellEq c d = true) (cellEq_iff c d)

-- Cell sizes, used only for termination of the recursions that walk a
-- cell's references.
mutual

def cellSize : Cell → Nat
  | .mk _ refs => 1 + cellListSize refs

def cellListSize : List Cell → Nat
  | [] => 0
  | c :: cs => cellSize c + cellListSize cs

end

theorem cellSize_head_lt (bits : List Bool) (r : Cell) (rs : List Cell) :
    cellSize r < cellSize (.mk bits (r :: rs)) := by
  simp only [cellSize, cellListSize]
  omega

/-! ## The cell builder (`beginCell()` chain from @ton/ton) -/

structure Builder where
  bits : List Bool
  refs : List Cell

def beginCellB : Builder := ⟨[], []⟩

def Builder.storeUint (b : Builder) (v n : Nat) : Builder :=
  ⟨b.bits ++ encodeUint v n, b.refs⟩

def Builder.storeCoins (b : Builder) (v : Nat) : Builder :=
  ⟨b.bits ++ encodeCoins v, b.refs⟩

def Builder.storeAddress (b : Builder) (a : Addr) : Builder :=
  ⟨b.bits ++ encodeAddr a, b.refs⟩

def Builder.storeBit (b : Builder) (x : Bool) : Builder :=
  ⟨b.bits ++ [x], b.refs⟩

def Builder.storeRef (b : Builder) (c : Cell) : Builder :=
  ⟨b.bits, b.refs ++ [c]⟩

def Builder.storeBits (b : Builder) (bs : List Bool) : Builder :=
  ⟨b.bits ++ bs, b.refs⟩

def Builder.endCell (b : Builder) : Cell := .mk b.bits b.refs

/-! ## transferJettons: the jetton transfer body (ton.ts lines 584-594)

`queryId` stands for the `Date.now()` value, `amountNano` and `forwardNano`
for `toNano(amount)` and `toNano(forwardAmount)`, `dest` and `responseDest`
for `Address.parse(toAddress)` and `this.wallet.address`. -/

def transferJettonsBody (queryId : Nat) (dest responseDest : Addr)
    (amountNano forwardNano : Nat) : Cell :=
  ((((((((beginCellB.storeUint 0xf8a7ea5 32).storeUint queryId 64).storeCoins
      amountNano).storeAddress dest).storeAddress
      responseDest).storeBit false).storeCoins forwardNano).storeBit false).endCell

/-- C1: For every destination address, amount and forward-amount, the jetton
transfer body built by `transferJettons` encodes exactly, in this order and
nothing else: the fixed 32-bit transfer opcode 0xf8a7ea5, a 64-bit query id,
the amount as coins, the destination address, the response-destination
address, a single custom-payload bit 0, the forward-amount as coins, and a
single forward-payload bit 0; and the body cell carries no references. -/
theorem transferJettons_body_layout (queryId : Nat) (dest responseDest : Addr)
    (amountNano forwardNano : Nat) :
    (transferJettonsBody queryId dest responseDest amountNano forwardNano).bits
      = encodeUint 0xf8a7ea5 32 ++ encodeUint queryId 64 ++ encodeCoins amountNano
        ++ encodeAddr dest ++ encodeAddr responseDest ++ [false]
        ++ encodeCoins forwardNano ++ [false]
    ∧ (transferJettonsBody queryId dest responseDest amountNano forwardNano).refs = [] := by
  constructor <;>
    simp [transferJettonsBody, beginCellB, Builder.storeUint, Builder.storeCoins,
      Builder.storeAddress, Builder.storeBit, Builder.endCell, Cell.bits, Cell.refs]

/-! ## Method opcodes (ton.ts lines 763-838)

`STANDARD_OPCODES` is keyed by method names; `methodToOpcode` looks the
lowercased method name up in it.  JS strings are compared as their character
sequences, so keys are modelled as character lists. -/

def STANDARD_OPCODES : List (List Char × Nat) :=
  [("transfer".data, 0xf8a7ea5),
   ("transfer_notification".data, 0x7362d09c),
   ("internal_transfer".data, 0x178d4519),
   ("excesses".data, 0xd53276db),
   ("burn".data, 0x595f07bc),
   ("burn_notification".data, 0x7bdd97de),
   ("transfer_nft".data, 0x5fcc3d14),
   ("ownership_assigned".data, 0x05138d91),
   ("get_static_data".data, 0x2fcb26a2),
   ("report_static_data".data, 0x8b771735),
   ("deploy".data, 0x0),
   ("simple_transfer".data, 0x0)]

/-- JS `String.prototype.toLowerCase` on the ASCII range (sufficient for the
method names the table contains; non-ASCII characters are left unchanged). -/
def lowerChar (c : Char) : Char :=
  if 'A' ≤ c ∧ c ≤ 'Z' then Char.ofNat (c.toNat + 32) else c

/-- `STANDARD_OPCODES[key]`: `undefined` (none) when the key is absent. -/
def lookupStandard (key : List Char) : Option Nat :=
  (STANDARD_OPCODES.find? (fun p => p.1 == key)).map (·.2)

/-- One round of the inner loop of `getCrc32Table`:
`crc = (crc & 1) ? (crc >>> 1) ^ 0xEDB88320 : crc >>> 1`. -/
def crcStep (c : Nat) : Nat :=
  if c % 2 = 1 then (c >>> 1) ^^^ 0xEDB88320 else c >>> 1

def crcRounds : Nat → Nat → Nat
  | 0, c => c
  | n + 1, c => crcRounds n (crcStep c)

/-- Entry `i` of the 256-entry table built by `getCrc32Table` (the memoized
`Uint32Array` is modelled as the pure function it computes). -/
def getCrc32TableEntry (i : Nat) : Nat := crcRounds 8 i

/-- One iteration of the `computeCrc32` loop:
`crc = (crc >>> 8) ^ table[(crc ^ unit) & 0xFF]`. -/
def crc32Update (crc u : Nat) : Nat :=
  (crc >>> 8) ^^^ getCrc32TableEntry ((crc ^^^ u) % 256)

/-- The full CRC-32 loop of `computeCrc32` over a list of input units:
initial value 0xFFFFFFFF, final xor with 0xFFFFFFFF. -/
def crc32Loop (units : List Nat) : Nat :=
  (units.foldl crc32Update 0xFFFFFFFF) ^^^ 0xFFFFFFFF

/-- The UTF-16 code units of a character: what `str.charCodeAt(i)` iterates
over in JS (a surrogate pair for code points above 0xFFFF). -/
def utf16Char (c : Char) : List Nat :=
  if c.toNat < 0x10000 then [c.toNat]
  else [0xD800 + (c.toNat - 0x10000) / 0x400, 0xDC00 + (c.toNat - 0x10000) % 0x400]

def utf16Units (s : String) : List Nat := s.data.flatMap utf16Char

/-- `computeCrc32(str)`: the CRC-32 loop over `str.charCodeAt(i)` for each
UTF-16 position `i` (each unit is masked to its low byte inside the table
index). -/
def computeCrc32 (s : String) : Nat := crc32Loop (utf16Units s)

/-- The UTF-8 encoding of a character's code point. -/
def utf8Char (c : Char) : List Nat :=
  if c.toNat < 0x80 then [c.toNat]
  else if c.toNat < 0x800 then
    [0xC0 + c.toNat / 0x40, 0x80 + c.toNat % 0x40]
  else if c.toNat < 0x10000 then
    [0xE0 + c.toNat / 0x1000, 0x80 + c.toNat / 0x40 % 0x40, 0x80 + c.toNat % 0x40]
  else
    [0xF0 + c.toNat / 0x40000, 0x80 + c.toNat / 0x1000 % 0x40,
      0x80 + c.toNat / 0x40 % 0x40, 0x80 + c.toNat % 0x40]

def utf8Bytes (s : String) : List Nat := s.data.flatMap utf8Char

/-- Modelled from the spec: the 32-bit CRC-32 (standard polynomial
0xEDB88320, table-driven, reflected) over the UTF-8 encoding of the method
name — the opcode the spec says unknown method names receive. -/
def crc32OfUtf8 (s : String) : Nat := crc32Loop (utf8Bytes s)

/-- `methodToOpcode(method, customOpcode?)` (ton.ts lines 787-804): a
supplied custom opcode is returned first, else the standard table keyed by
the lowercased name, else the computed CRC-32. -/
def methodToOpcode (method : String) (customOpcode : Option Nat) : Nat :=
  match customOpcode with
  | some c => c
  | none =>
    match lookupStandard (method.data.map lowerChar) with
    | some op => op
    | none => computeCrc32 method

theorem bind_utf16_eq_utf8 (l : List Char) (h : ∀ c ∈ l, c.toNat < 0x80) :
    l.flatMap utf16Char = l.flatMap utf8Char := by
  induction l with
  | nil => rfl
  | cons c cs ih =>
    have hc : c.toNat < 0x80 := h c (List.mem_cons_self c cs)
    have h16 : utf16Char c = [c.toNat] := by
      unfold utf16Char
      rw [if_pos (by omega)]
    have h8 : utf8Char c = [c.toNat] := by
      unfold utf8Char
      rw [if_pos hc]
    simp only [List.flatMap_cons, h16, h8,
      ih (fun d hd => h d (List.mem_cons_of_mem c hd))]

/-- C2 counterexample: with method name "transfer" (present in the standard
table) and a caller-supplied custom opcode 1, `methodToOpcode` returns the
custom opcode 1, not the table's 0xf8a7ea5 — the caller-supplied override is
consulted before the standard table, not after it. -/
theorem methodToOpcode_custom_beats_table :
    methodToOpcode "transfer" (some 1) = 1
    ∧ methodToOpcode "transfer" none = 0xf8a7ea5
    ∧ (1 : Nat) ≠ 0xf8a7ea5 := by
  refine ⟨rfl, ?_, by decide⟩
  decide

/-- C2 amended: the method-call opcode is resolved first from the
caller-supplied custom opcode when one is given, else from the fixed
standard-opcode table keyed by the lowercased method name, else by computing
the CRC-32 of the method name; in particular a caller-supplied custom opcode
takes precedence even for method names present in the standard table. -/
theorem methodToOpcode_resolution (m : String) :
    (∀ c, methodToOpcode m (some c) = c)
    ∧ (∀ op, lookupStandard (m.data.map lowerChar) = some op →
        methodToOpcode m none = op)
    ∧ (lookupStandard (m.data.map lowerChar) = none →
        methodToOpcode m none = computeCrc32 m) := by
  refine ⟨fun c => rfl, fun op h => ?_, fun h => ?_⟩ <;>
    simp [methodToOpcode, h]

theorem methodToOpcode_resolution_witness :
    methodToOpcode "Burn" none = 0x595f07bc ∧ methodToOpcode "transfer" (some 7) = 7 :=
  ⟨(methodToOpcode_resolution "Burn").2.1 0x595f07bc (by decide),
   (methodToOpcode_resolution "transfer").1 7⟩

/-- C3 counterexample: for the method name "é" (absent from the standard
table, no custom opcode), the resolved opcode is the CRC-32 of the low byte
of its single UTF-16 code unit (0xE9), which differs from the CRC-32 of its
UTF-8 encoding (bytes 0xC3 0xA9): the code runs the CRC over
`charCodeAt & 0xFF`, not over UTF-8 bytes. -/
theorem methodToOpcode_crc_not_utf8 :
    methodToOpcode "é" none = computeCrc32 "é"
    ∧ computeCrc32 "é" ≠ crc32OfUtf8 "é" := by
  constructor
  · decide
  · decide

/-- C3 amended: for every method name made of ASCII characters (code points
below 0x80) that is absent from the standard opcode table, with no custom
opcode supplied, the resolved opcode equals the standard reflected,
table-driven CRC-32 with polynomial 0xEDB88320 over the UTF-8 encoding of
the name (which coincides with the string's code units there); for
non-ASCII names the code instead feeds the low byte of each UTF-16 code
unit to the CRC. -/
theorem methodToOpcode_crc_utf8_on_ascii (m : String)
    (hascii : ∀ c ∈ m.data, c.toNat < 0x80)
    (hmiss : lookupStandard (m.data.map lowerChar) = none) :
    methodToOpcode m none = crc32OfUtf8 m := by
  have hunits : utf16Units m = utf8Bytes m := bind_utf16_eq_utf8 m.data hascii
  simp [methodToOpcode, hmiss, computeCrc32, crc32OfUtf8, hunits]

theorem methodToOpcode_crc_utf8_on_ascii_witness :
    methodToOpcode "mint" none = crc32OfUtf8 "mint" :=
  methodToOpcode_crc_utf8_on_ascii "mint" (by decide) (by decide)

/-! ## waitForTransaction (ton.ts lines 187-208)

The chain is abstracted as a polling environment: attempt `i` observes the
wallet's current seqno `(env i).1` (from `contract.getSeqno()`) and the
wallet's recent transaction hashes `(env i).2`, most recent first (the
`limit: 5` fetch).  The for-loop is translated with a countdown equal to the
remaining attempts, `attempt` being the loop index; the sleeps only spend
wall-clock time and do not affect the value. -/

def timeoutMsg (maxAttempts : Nat) : String :=
  "Transaction not confirmed after " ++ Nat.repr maxAttempts ++ " attempts"

def waitLoopAux (submitted : Nat) (env : Nat → Nat × List String)
    (maxAttempts : Nat) : Nat → Nat → Except String String
  | _, 0 => .error (timeoutMsg maxAttempts)
  | attempt, fuel + 1 =>
    if submitted < (env attempt).1 then
      if 0 < (env attempt).2.length then .ok ((env attempt).2.headD "")
      else waitLoopAux submitted env maxAttempts (attempt + 1) fuel
    else waitLoopAux submitted env maxAttempts (attempt + 1) fuel

def waitForTransaction (submitted maxAttempts : Nat)
    (env : Nat → Nat × List String) : Except String String :=
  waitLoopAux submitted env maxAttempts 0 maxAttempts

/-- Attempt `i` both observes an advanced seqno and fetches a nonempty
transaction list: the condition under which the loop resolves a hash. -/
def confirmAt (env : Nat → Nat × List String) (submitted i : Nat) : Prop :=
  submitted < (env i).1 ∧ (env i).2 ≠ []

instance (env : Nat → Nat × List String) (submitted i : Nat) :
    Decidable (confirmAt env submitted i) :=
  inferInstanceAs (Decidable (_ ∧ _))

theorem waitLoopAux_timeout (submitted : Nat) (env : Nat → Nat × List String)
    (maxAttempts : Nat) :
    ∀ fuel attempt, (∀ i, attempt ≤ i → i < attempt + fuel → ¬ confirmAt env submitted i) →
    waitLoopAux submitted env maxAttempts attempt fuel = .error (timeoutMsg maxAttempts)
  | 0, attempt, _ => rfl
  | fuel + 1, attempt, h => by
    have hnc := h attempt le_rfl (by omega)
    have ih := waitLoopAux_timeout submitted env maxAttempts fuel (attempt + 1)
      (fun i h1 h2 => h i (by omega) (by omega))
    unfold waitLoopAux
    by_cases hs : submitted < (env attempt).1
    · have hempty : (env attempt).2 = [] := by
        by_contra hne
        exact hnc ⟨hs, hne⟩
      rw [if_pos hs, hempty]
      simpa using ih
    · rw [if_neg hs]
      exact ih

theorem waitLoopAux_ok (submitted : Nat) (env : Nat → Nat × List String)
    (maxAttempts : Nat) :
    ∀ fuel attempt i, attempt ≤ i → i < attempt + fuel →
    confirmAt env submitted i →
    (∀ j, attempt ≤ j → j < i → ¬ confirmAt env submitted j) →
    waitLoopAux submitted env maxAttempts attempt fuel = .ok ((env i).2.headD "")
  | 0, attempt, i, h1, h2, _, _ => by omega
  | fuel + 1, attempt, i, h1, h2, hc, hfirst => by
    unfold waitLoopAux
    rcases Nat.eq_or_lt_of_le h1 with heq | hlt
    · subst heq
      rw [if_pos hc.1, if_pos (by
        cases hl : (env attempt).2 with
        | nil => exact absurd hl hc.2
        | cons a l => simp)]
    · have hnc := hfirst attempt le_rfl hlt
      have ih := waitLoopAux_ok submitted env maxAttempts fuel (attempt + 1) i
        (by omega) (by omega) hc (fun j hj1 hj2 => hfirst j (by omega) hj2)
      by_cases hs : submitted < (env attempt).1
      · have hempty : (env attempt).2 = [] := by
          by_contra hne
          exact hnc ⟨hs, hne⟩
        rw [if_pos hs, hempty]
        simpa using ih
      · rw [if_neg hs]
        exact ih

/-- C4 counterexample: submitted seqno 0, one attempt, an environment whose
fetched seqno 5 strictly exceeds the submitted one but whose transaction
fetch is empty — the poller does not confirm; it keeps polling and raises
the timeout error, refuting "if it does strictly exceed it, the poller
transitions to Confirmed and resolves the hash". -/
def envC4bad : Nat → Nat × List String := fun _ => (5, [])

theorem waitForTransaction_advance_without_hash :
    0 < (envC4bad 0).1
    ∧ waitForTransaction 0 1 envC4bad = .error (timeoutMsg 1) :=
  ⟨by decide, rfl⟩

/-- C4 amended: if the fetched seqno never strictly exceeds the submitted
one, `waitForTransaction` raises the timeout error naming `maxAttempts`
after its `maxAttempts` polling attempts; if at some attempt the seqno
strictly exceeds the submitted one AND the accompanying transaction fetch is
nonempty, the earliest such attempt resolves the hash of its most-recent
transaction entry (an advanced seqno with an empty fetch keeps polling); and
no outcome other than a resolved hash or an error exists. -/
theorem waitForTransaction_behavior (submitted maxAttempts : Nat)
    (env : Nat → Nat × List String) :
    ((∀ i, i < maxAttempts → (env i).1 ≤ submitted) →
      waitForTransaction submitted maxAttempts env = .error (timeoutMsg maxAttempts))
    ∧ (∀ i, i < maxAttempts → confirmAt env submitted i →
        (∀ j, j < i → ¬ confirmAt env submitted j) →
        waitForTransaction submitted maxAttempts env = .ok ((env i).2.headD ""))
    ∧ ((∃ e, waitForTransaction submitted maxAttempts env = .error e)
        ∨ (∃ h, waitForTransaction submitted maxAttempts env = .ok h)) := by
  refine ⟨fun h => ?_, fun i hi hc hfirst => ?_, ?_⟩
  · exact waitLoopAux_timeout submitted env maxAttempts maxAttempts 0
      (fun i h1 h2 hcf => absurd hcf.1 (Nat.not_lt.mpr (h i (by omega))))
  · exact waitLoopAux_ok submitted env maxAttempts maxAttempts 0 i (Nat.zero_le i)
      (by omega) hc (fun j _ hj => hfirst j hj)
  · cases hval : waitForTransaction submitted maxAttempts env with
    | error e => exact Or.inl ⟨e, rfl⟩
    | ok h => exact Or.inr ⟨h, rfl⟩

def envC4good : Nat → Nat × List String :=
  fun i => if i = 0 then (0, ["h0"]) else (5, ["h1"])

theorem waitForTransaction_behavior_witness :
    waitForTransaction 0 2 envC4good = .ok "h1" := by
  have := (waitForTransaction_behavior 0 2 envC4good).2.1 1 (by omega)
    (by constructor <;> simp [envC4good])
    (by
      intro j hj
      interval_cases j
      simp [confirmAt, envC4good])
  simpa [envC4good] using this

/-! ## estimateGas and countCells (ton.ts lines 637-676) -/

mutual

def countCells : Cell → Nat
  | .mk _ refs => 1 + countCellsList refs

def countCellsList : List Cell → Nat
  | [] => 0
  | c :: cs => countCells c + countCellsList cs

end

/-- `estimateGas(toAddress, amount, message?)`: base fee 0.005 TON plus, for
a message, `ceil(bits/1000) * 1_000_000 + cells * 500_000` nanoTON (bits is
the root cell's bit length, cells is `countCells`), plus a 0.003 TON forward
fee.  `toAddress` and `amount` do not enter the formula. -/
def estimateGas (toAddress amount : String) (message : Option Cell) : Nat :=
  let baseFee := 5000000
  let messageFee :=
    match message with
    | none => 0
    | some m => ((m.bits.length + 999) / 1000) * 1000000 + countCells m * 500000
  let forwardFee := 3000000
  baseFee + messageFee + forwardFee

/-- C8 counterexample: a one-bit message and a two-bit message (same single
cell) get the same estimate, although the second encodes strictly more bits
— the bit fee only grows at 1000-bit boundaries, so the estimate is not
strictly monotone in bit count. -/
theorem estimateGas_equal_despite_more_bits :
    (Cell.mk [true] []).bits.length < (Cell.mk [true, true] []).bits.length
    ∧ estimateGas "EQAddr" "1" (some (Cell.mk [true, true] []))
      = estimateGas "EQAddr" "1" (some (Cell.mk [true] [])) := by
  constructor
  · decide
  · simp [estimateGas, countCells, countCellsList, Cell.bits]

/-- C8 amended: the estimate is monotonically non-decreasing in message size
(root-cell bit count and total cell count); it is strictly greater whenever
the bigger message has strictly more cells (with at least as many bits), or
whenever its bit count crosses into a higher 1000-bit bucket (with at least
as many cells); two messages whose bit counts fall in the same 1000-bit
bucket and whose cell counts agree get equal estimates, so strictly more
bits alone do not force a strictly greater estimate. -/
theorem estimateGas_size_monotone (dst amt : String) (m1 m2 : Cell) :
    (m1.bits.length ≤ m2.bits.length → countCells m1 ≤ countCells m2 →
      estimateGas dst amt (some m1) ≤ estimateGas dst amt (some m2))
    ∧ (m1.bits.length ≤ m2.bits.length → countCells m1 < countCells m2 →
      estimateGas dst amt (some m1) < estimateGas dst amt (some m2))
    ∧ ((m1.bits.length + 999) / 1000 < (m2.bits.length + 999) / 1000 →
      countCells m1 ≤ countCells m2 →
      estimateGas dst amt (some m1) < estimateGas dst amt (some m2)) := by
  have hdiv : m1.bits.length ≤ m2.bits.length →
      (m1.bits.length + 999) / 1000 ≤ (m2.bits.length + 999) / 1000 :=
    fun h => Nat.div_le_div_right (Nat.add_le_add_right h 999)
  refine ⟨fun h1 h2 => ?_, fun h1 h2 => ?_, fun h1 h2 => ?_⟩ <;>
    simp only [estimateGas] <;>
    have := hdiv <;> omega

theorem estimateGas_size_monotone_witness :
    estimateGas "EQw" "2" (some (Cell.mk [] []))
      < estimateGas "EQw" "2" (some (Cell.mk [] [Cell.mk [] []])) := by
  have h := (estimateGas_size_monotone "EQw" "2" (Cell.mk [] [])
    (Cell.mk [] [Cell.mk [] []])).2.1
  exact h (by simp [Cell.bits]) (by simp [countCells, countCellsList])

/-! ## getTransactionStatus (ton.ts lines 210-240)

`history` is the wallet's transaction history, most recent first, as
returned by the RPC client; the `limit: 100` fetch yields its first 100
entries.  `nowMs` stands for `Date.now()`. -/

inductive TxStatus where
  | success
  | pending
  | failed
deriving DecidableEq

structure TransactionResult where
  hash : String
  status : TxStatus
  amount : String
  fee : Option String
  timestamp : Nat
deriving DecidableEq

/-- One entry of the wallet's transaction history: its hex hash, the coin
value of its in-message when that message is internal, its total fees, and
its unix-seconds timestamp. -/
structure TxEntry where
  hash : String
  inMsgInternalValue : Option Nat
  totalFees : Nat
  now : Nat
deriving DecidableEq

/-- `fromNano` of @ton/core: nanoTON to a decimal TON string, fractional
part padded to 9 digits and stripped of trailing zeros, omitted when 0. -/
def fromNano (n : Nat) : String :=
  let whole := n / 1000000000
  let frac := n % 1000000000
  let fracDigits :=
    ((List.replicate (9 - (Nat.repr frac).data.length) '0'
      ++ (Nat.repr frac).data).reverse.dropWhile (· = '0')).reverse
  if fracDigits.isEmpty then Nat.repr whole
  else Nat.repr whole ++ "." ++ String.mk fracDigits

def getTransactionStatus (hash : String) (history : List TxEntry)
    (nowMs : Nat) : TransactionResult :=
  let transactions := history.take 100
  match transactions.find? (fun t => t.hash == hash) with
  | none => { hash := hash, status := .pending, amount := "0", fee := none, timestamp := nowMs }
  | some tx =>
    { hash := hash
      status := .success
      amount := fromNano (tx.inMsgInternalValue.getD 0)
      fee := some (fromNano tx.totalFees)
      timestamp := tx.now * 1000 }

/-- C10: a hash not among the (up to) 100 most recent transactions yields a
result carrying that same hash with status pending and amount "0" rather
than a not-found error; the returned hash always equals the queried one; the
failed status is never produced; and whenever the hash is found among those
entries the status is success. -/
theorem getTransactionStatus_spec (hash : String) (history : List TxEntry)
    (nowMs : Nat) :
    (hash ∉ (history.take 100).map TxEntry.hash →
      getTransactionStatus hash history nowMs
        = { hash := hash, status := .pending, amount := "0", fee := none, timestamp := nowMs })
    ∧ (getTransactionStatus hash history nowMs).hash = hash
    ∧ (getTransactionStatus hash history nowMs).status ≠ .failed
    ∧ (∀ tx ∈ history.take 100, tx.hash = hash →
        (getTransactionStatus hash history nowMs).status = .success) := by
  refine ⟨fun hmem => ?_, ?_, ?_, fun tx htx hh => ?_⟩
  · have hnone : (history.take 100).find? (fun t => t.hash == hash) = none := by
      rw [List.find?_eq_none]
      intro t ht
      simp only [beq_iff_eq]
      intro heq
      exact hmem (heq ▸ List.mem_map_of_mem TxEntry.hash ht)
    simp [getTransactionStatus, hnone]
  · unfold getTransactionStatus
    cases hfind : (history.take 100).find? (fun t => t.hash == hash) <;>
      simp [hfind]
  · unfold getTransactionStatus
    cases hfind : (history.take 100).find? (fun t => t.hash == hash) <;>
      simp [hfind]
  · unfold getTransactionStatus
    cases hfind : (history.take 100).find? (fun t => t.hash == hash) with
    | some tx' => simp [hfind]
    | none =>
      rw [List.find?_eq_none] at hfind
      exact absurd (by simp [hh]) (hfind tx htx)

theorem getTransactionStatus_spec_witness :
    getTransactionStatus "deadbeef" [] 7
      = { hash := "deadbeef", status := .pending, amount := "0", fee := none, timestamp := 7 } :=
  (getTransactionStatus_spec "deadbeef" [] 7).1 (by simp)

/-! ## Wallet initialization (ton.ts lines 77-104)

The source throws plain `Error`s from three distinct sites; the model tags
them by site and records each site's message.  `mnemonicToPrivateKey` (the
@ton/crypto derivation, the only cryptographic/asynchronous step) and the
wallet-address derivation `WalletContractV4.create(...).address.toString()`
are oracle parameters.  The function models `initialize()`. -/

inductive InitError where
  | missingMnemonic
  | invalidMnemonic (got : Nat)
  | derivationFailed (e : String)
deriving DecidableEq

/-- The message of the `Error` thrown at each site. -/
def InitError.message : InitError → String
  | .missingMnemonic => "Wallet mnemonic is required for TON service initialization"
  | .invalidMnemonic got =>
      "Invalid mnemonic: expected 12, 15, 18, 21, or 24 words, got " ++ Nat.repr got
  | .derivationFailed e => e

/-- JS `str.split(' ')`: splits at every single space, keeping empty
pieces. -/
def splitSpace : List Char → List (List Char)
  | [] => [[]]
  | c :: cs =>
    let rest := splitSpace cs
    if c = ' ' then [] :: rest
    else
      match rest with
      | [] => [[c]]
      | w :: ws => (c :: w) :: ws

/-- `initialize()`: a missing (or empty, hence falsy) configured mnemonic is
the missing-mnemonic error; then the word count of the space-split mnemonic
must be one of 12, 15, 18, 21, 24, else the invalid-mnemonic error; only
then is the key derived and the wallet address computed.  Errors thrown by
derivation are rethrown unchanged by the catch block. -/
def initializeWallet (walletMnemonic : Option String)
    (mnemonicToPrivateKey : List (List Char) → Except String Nat)
    (walletAddressOf : Nat → String) : Except InitError String :=
  match walletMnemonic with
  | none => .error .missingMnemonic
  | some m =>
    if m = "" then .error .missingMnemonic
    else
      let mnemonic := splitSpace m.data
      if [12, 15, 18, 21, 24].contains mnemonic.length then
        match mnemonicToPrivateKey mnemonic with
        | .error e => .error (.derivationFailed e)
        | .ok publicKey => .ok (walletAddressOf publicKey)
      else .error (.invalidMnemonic mnemonic.length)

/-- C5: a nonempty mnemonic whose word count is not one of 12, 15, 18, 21,
24 makes initialization fail with the invalid-mnemonic validation error; the
outcome does not depend on the derivation or address oracles (so no
cryptographic derivation or network access is consulted); and that error is
distinct — as a tagged error and by message — from the missing-mnemonic
error, and distinct as a tagged error from any derivation failure. -/
theorem initializeWallet_invalid_word_count (m : String)
    (mnemonicToPrivateKey : List (List Char) → Except String Nat)
    (walletAddressOf : Nat → String)
    (hcount : ¬ [12, 15, 18, 21, 24].contains (splitSpace m.data).length)
    (hne : m ≠ "") :
    initializeWallet (some m) mnemonicToPrivateKey walletAddressOf
        = .error (.invalidMnemonic (splitSpace m.data).length)
    ∧ (∀ derive2 addr2, initializeWallet (some m) derive2 addr2
        = initializeWallet (some m) mnemonicToPrivateKey walletAddressOf)
    ∧ (∀ k, InitError.invalidMnemonic k ≠ .missingMnemonic)
    ∧ (∀ k e, InitError.invalidMnemonic k ≠ .derivationFailed e)
    ∧ (∀ k, (InitError.invalidMnemonic k).message ≠ InitError.missingMnemonic.message) := by
  have hc : ¬((splitSpace m.data).length = 12 ∨ (splitSpace m.data).length = 15
      ∨ (splitSpace m.data).length = 18 ∨ (splitSpace m.data).length = 21
      ∨ (splitSpace m.data).length = 24) := by
    simpa using hcount
  refine ⟨?_, fun derive2 addr2 => ?_, fun k => by simp, fun k e => by simp, fun k => ?_⟩
  · simp [initializeWallet, hne, hc]
  · simp [initializeWallet, hne, hc]
  · intro h
    simp only [InitError.message] at h
    have hdata := congrArg String.data h
    rw [String.data_append] at hdata
    have hI : ("Invalid mnemonic: expected 12, 15, 18, 21, or 24 words, got ").data.head?
        = some 'I' := by decide
    have hW : ("Wallet mnemonic is required for TON service initialization").data.head?
        = some 'W' := by decide
    have hhead := congrArg List.head? hdata
    rw [List.head?_append_of_ne_nil] at hhead
    · rw [hI, hW] at hhead
      simp at hhead
    · intro hnil
      rw [hnil] at hI
      simp at hI

theorem initializeWallet_invalid_word_count_witness :
    initializeWallet (some "w w w w w w w w w w w")
        (fun _ => .error "unreached") (fun _ => "unreached")
      = .error (.invalidMnemonic 11) := by
  have h := (initializeWallet_invalid_word_count "w w w w w w w w w w w"
    (fun _ => .error "unreached") (fun _ => "unreached")
    (by decide) (by decide)).1
  have hlen : (splitSpace ("w w w w w w w w w w w").data).length = 11 := by decide
  rw [h, hlen]

/-! ## Slices, bytes and UTF-8 decoding (for metadata parsing) -/

structure Slice where
  bits : List Bool
  refs : List Cell

def Cell.beginParse (c : Cell) : Slice := ⟨c.bits, c.refs⟩

/-- Big-endian value of a bit string. -/
def bitsToNat (bs : List Bool) : Nat :=
  bs.foldl (fun acc b => 2 * acc + (if b then 1 else 0)) 0

def byteToBits (b : Nat) : List Bool := encodeUint b 8

/-- Accumulates eight bits at a time into bytes; sub-byte leftovers are
dropped, as `loadBuffer(Math.floor(remainingBits / 8))` leaves them
unread. -/
def bytesAux : List Bool → List Bool → List Nat
  | _, [] => []
  | cur, b :: bs =>
    let cur2 := cur ++ [b]
    if cur2.length = 8 then bitsToNat cur2 :: bytesAux [] bs
    else bytesAux cur2 bs

def bitsToBytes (l : List Bool) : List Nat := bytesAux [] l

/-- Node's UTF-8 decoding of a byte buffer (`buf.toString('utf-8')`,
WHATWG-style), producing code points; each malformed or truncated sequence
produces U+FFFD and decoding restarts at the offending byte. -/
def decodeUtf8 : List Nat → List Nat
  | [] => []
  | b :: bs =>
    if b < 0x80 then b :: decodeUtf8 bs
    else if b < 0xC2 then 0xFFFD :: decodeUtf8 bs
    else if b < 0xE0 then
      match bs with
      | [] => [0xFFFD]
      | b2 :: bs2 =>
        if 0x80 ≤ b2 ∧ b2 < 0xC0 then
          ((b - 0xC0) * 0x40 + (b2 - 0x80)) :: decodeUtf8 bs2
        else 0xFFFD :: decodeUtf8 (b2 :: bs2)
    else if b < 0xF0 then
      match bs with
      | [] => [0xFFFD]
      | b2 :: bs2 =>
        if (if b = 0xE0 then 0xA0 else 0x80) ≤ b2 ∧ b2 < (if b = 0xED then 0xA0 else 0xC0) then
          match bs2 with
          | [] => [0xFFFD]
          | b3 :: bs3 =>
            if 0x80 ≤ b3 ∧ b3 < 0xC0 then
              ((b - 0xE0) * 0x1000 + (b2 - 0x80) * 0x40 + (b3 - 0x80)) :: decodeUtf8 bs3
            else 0xFFFD :: decodeUtf8 (b3 :: bs3)
        else 0xFFFD :: decodeUtf8 (b2 :: bs2)
    else if b < 0xF5 then
      match bs with
      | [] => [0xFFFD]
      | b2 :: bs2 =>
        if (if b = 0xF0 then 0x90 else 0x80) ≤ b2 ∧ b2 < (if b = 0xF4 then 0x90 else 0xC0) then
          match bs2 with
          | [] => [0xFFFD]
          | b3 :: bs3 =>
            if 0x80 ≤ b3 ∧ b3 < 0xC0 then
              match bs3 with
              | [] => [0xFFFD]
              | b4 :: bs4 =>
                if 0x80 ≤ b4 ∧ b4 < 0xC0 then
                  ((b - 0xF0) * 0x40000 + (b2 - 0x80) * 0x1000
                    + (b3 - 0x80) * 0x40 + (b4 - 0x80)) :: decodeUtf8 bs4
                else 0xFFFD :: decodeUtf8 (b4 :: bs4)
            else 0xFFFD :: decodeUtf8 (b3 :: bs3)
        else 0xFFFD :: decodeUtf8 (b2 :: bs2)
    else 0xFFFD :: decodeUtf8 bs

/-- The code points of a JS string. -/
def stringToCodepoints (s : String) : List Nat := s.data.map Char.toNat

example : decodeUtf8 [0xC3] = [0xFFFD] := by decide
example : decodeUtf8 [0xA9] = [0xFFFD] := by decide
example : decodeUtf8 [0xC3, 0xA9] = [0xE9] := by decide
example : decodeUtf8 [0xE2, 0x82, 0xAC] = [0x20AC] := by decide
example : decodeUtf8 [0xF0, 0x9F, 0x98, 0x80] = [0x1F600] := by decide
example : bitsToBytes (byteToBits 0xC3 ++ byteToBits 0xA9 ++ [true, false]) = [0xC3, 0xA9] := by decide

/-! ## parseSnakeData (ton.ts lines 950-982)

The loop over `current` is the recursion; `cell` stays the function's
original argument, because the non-snake fallback re-parses `cell` — the
original cell — from the start.  JS accumulates `result` by decoding each
cell's bytes separately with `data.toString('utf-8')` and concatenating, so
the accumulator is a code-point list. -/

def parseSnakeGo (cell : Cell) : Cell → List Nat → Except String (List Nat)
  | Cell.mk bits refs, result =>
    if bits.length < 8 then .error "Slice: not enough bits"
    else
      let pfx8 := bitsToNat (bits.take 8)
      if pfx8 = 0 then
        let result2 := result ++ decodeUtf8 (bitsToBytes (bits.drop 8))
        match refs with
        | r :: _ => parseSnakeGo cell r result2
        | [] => .ok result2
      else
        let full := Cell.beginParse cell
        if 0 < full.bits.length then
          .ok (decodeUtf8 (bitsToBytes full.bits))
        else .ok result
termination_by cur => cellSize cur
decreasing_by exact cellSize_head_lt bits r _

def parseSnakeData (cell : Cell) : Except String (List Nat) :=
  parseSnakeGo cell cell []

/-- Modelled from the spec: "Snake format: a convention for splitting a long
byte string across a chain of cells linked by single child references", each
cell carrying "an 0x00 prefix byte followed by data bytes".  The repository
has no snake encoder (parseSnakeData is its decoder), so the encoder is
built from these words: one cell per chunk, prefix byte 0x00, the chunk's
bytes, and a single reference to the next chunk's cell. -/
def snakeCellOfChunks : List (List Nat) → Cell
  | [] => .mk (byteToBits 0) []
  | [chunk] => .mk (byteToBits 0 ++ chunk.flatMap byteToBits) []
  | chunk :: rest => .mk (byteToBits 0 ++ chunk.flatMap byteToBits) [snakeCellOfChunks rest]

/-- Snake-encoding of a string split into the given pieces: each piece is
UTF-8 encoded into its own cell. -/
def snakeOfStrings (ts : List String) : Cell :=
  snakeCellOfChunks (ts.map utf8Bytes)

example : parseSnakeData (snakeCellOfChunks [[0x41, 0x42]]) = .ok [0x41, 0x42] := by
  simp [parseSnakeData, parseSnakeGo, snakeCellOfChunks, byteToBits]
  decide

/-! ## Snake round trip: byte-level and UTF-8-level inverses -/

theorem byteToBits_explicit (b : Nat) :
    byteToBits b = [b.testBit 7, b.testBit 6, b.testBit 5, b.testBit 4,
      b.testBit 3, b.testBit 2, b.testBit 1, b.testBit 0] := rfl

theorem bitsToBytes_cons8 (x0 x1 x2 x3 x4 x5 x6 x7 : Bool) (rest : List Bool) :
    bitsToBytes (x0 :: x1 :: x2 :: x3 :: x4 :: x5 :: x6 :: x7 :: rest)
      = bitsToNat [x0, x1, x2, x3, x4, x5, x6, x7] :: bitsToBytes rest := rfl

set_option maxRecDepth 4096 in
theorem bitsToNat_byteToBits : ∀ b < 256, bitsToNat (byteToBits b) = b := by decide

theorem bitsToBytes_byte (b : Nat) (hb : b < 256) (rest : List Bool) :
    bitsToBytes (byteToBits b ++ rest) = b :: bitsToBytes rest := by
  rw [byteToBits_explicit]
  simp only [List.cons_append, List.nil_append]
  rw [bitsToBytes_cons8]
  rw [show bitsToNat [b.testBit 7, b.testBit 6, b.testBit 5, b.testBit 4,
        b.testBit 3, b.testBit 2, b.testBit 1, b.testBit 0] = b from
      (byteToBits_explicit b) ▸ bitsToNat_byteToBits b hb]

theorem bitsToBytes_chunk (l : List Nat) (h : ∀ b ∈ l, b < 256) :
    bitsToBytes (l.flatMap byteToBits) = l := by
  induction l with
  | nil => rfl
  | cons b bs ih =>
    rw [List.flatMap_cons,
      bitsToBytes_byte b (h b (List.mem_cons_self b bs)),
      ih (fun x hx => h x (List.mem_cons_of_mem b hx))]

/-- A character's code point is a Unicode scalar value. -/
theorem char_toNat_valid (c : Char) :
    c.toNat < 0xd800 ∨ (0xdfff < c.toNat ∧ c.toNat < 0x110000) := by
  have h := c.valid
  simp only [UInt32.isValidChar, Nat.isValidChar, UInt32.toNat] at h
  exact h

theorem utf8Char_bytes_lt_256 (c : Char) : ∀ b ∈ utf8Char c, b < 256 := by
  have hv := char_toNat_valid c
  intro b hb
  unfold utf8Char at hb
  split_ifs at hb <;> simp only [List.mem_cons, List.mem_singleton] at hb <;>
    rcases hb with h | h | h | h | h <;> first | (subst h; omega) | (exact absurd h (by simp))

theorem utf8Bytes_lt_256 (s : String) : ∀ b ∈ utf8Bytes s, b < 256 := by
  intro b hb
  unfold utf8Bytes at hb
  rw [List.mem_flatMap] at hb
  obtain ⟨c, _, hbc⟩ := hb
  exact utf8Char_bytes_lt_256 c b hbc


theorem decodeUtf8_nil : decodeUtf8 [] = [] := rfl

set_option maxRecDepth 16384 in
theorem decodeUtf8_utf8Char (c : Char) (rest : List Nat) :
    decodeUtf8 (utf8Char c ++ rest) = c.toNat :: decodeUtf8 rest := by
  have hv := char_toNat_valid c
  by_cases h1 : c.toNat < 0x80
  · rw [show utf8Char c = [c.toNat] from by unfold utf8Char; rw [if_pos h1]]
    simp only [List.cons_append, List.nil_append]
    rw [decodeUtf8.eq_def]
    simp only []
    rw [if_pos h1]
  · by_cases h2 : c.toNat < 0x800
    · rw [show utf8Char c = [0xC0 + c.toNat / 0x40, 0x80 + c.toNat % 0x40] from by
        unfold utf8Char; rw [if_neg h1, if_pos h2]]
      simp only [List.cons_append, List.nil_append]
      rw [decodeUtf8.eq_def]
      simp only []
      rw [if_neg (by omega), if_neg (by omega), if_pos (by omega),
        if_pos (show 0x80 ≤ 0x80 + c.toNat % 0x40 ∧ 0x80 + c.toNat % 0x40 < 0xC0 by omega)]
      congr 1
      omega
    · by_cases h3 : c.toNat < 0x10000
      · rw [show utf8Char c = [0xE0 + c.toNat / 0x1000, 0x80 + c.toNat / 0x40 % 0x40,
            0x80 + c.toNat % 0x40] from by
          unfold utf8Char; rw [if_neg h1, if_neg h2, if_pos h3]]
        simp only [List.cons_append, List.nil_append]
        rw [decodeUtf8.eq_def]
        simp only []
        rw [if_neg (by omega), if_neg (by omega), if_neg (by omega), if_pos (by omega)]
        have hcont : (if 0xE0 + c.toNat / 0x1000 = 0xE0 then 0xA0 else 0x80)
            ≤ 0x80 + c.toNat / 0x40 % 0x40
            ∧ 0x80 + c.toNat / 0x40 % 0x40
              < (if 0xE0 + c.toNat / 0x1000 = 0xED then 0xA0 else 0xC0) := by
          constructor
          · split <;> omega
          · split <;> omega
        rw [if_pos hcont,
          if_pos (show 0x80 ≤ 0x80 + c.toNat % 0x40 ∧ 0x80 + c.toNat % 0x40 < 0xC0 by omega)]
        congr 1
        omega
      · rw [show utf8Char c = [0xF0 + c.toNat / 0x40000, 0x80 + c.toNat / 0x1000 % 0x40,
            0x80 + c.toNat / 0x40 % 0x40, 0x80 + c.toNat % 0x40] from by
          unfold utf8Char; rw [if_neg h1, if_neg h2, if_neg h3]]
        simp only [List.cons_append, List.nil_append]
        rw [decodeUtf8.eq_def]
        simp only []
        rw [if_neg (by omega), if_neg (by omega), if_neg (by omega), if_neg (by omega),
          if_pos (by omega)]
        have hcont : (if 0xF0 + c.toNat / 0x40000 = 0xF0 then 0x90 else 0x80)
            ≤ 0x80 + c.toNat / 0x1000 % 0x40
            ∧ 0x80 + c.toNat / 0x1000 % 0x40
              < (if 0xF0 + c.toNat / 0x40000 = 0xF4 then 0x90 else 0xC0) := by
          constructor
          · split <;> omega
          · split <;> omega
        rw [if_pos hcont,
          if_pos (show 0x80 ≤ 0x80 + c.toNat / 0x40 % 0x40
            ∧ 0x80 + c.toNat / 0x40 % 0x40 < 0xC0 by omega),
          if_pos (show 0x80 ≤ 0x80 + c.toNat % 0x40 ∧ 0x80 + c.toNat % 0x40 < 0xC0 by omega)]
        congr 1
        omega

theorem decodeUtf8_flatMap (l : List Char) (rest : List Nat) :
    decodeUtf8 (l.flatMap utf8Char ++ rest) = l.map Char.toNat ++ decodeUtf8 rest := by
  induction l with
  | nil => simp
  | cons c cs ih =>
    rw [List.flatMap_cons, List.append_assoc, decodeUtf8_utf8Char c _, ih, List.map_cons,
      List.cons_append]

theorem decodeUtf8_utf8Bytes (s : String) :
    decodeUtf8 (utf8Bytes s) = stringToCodepoints s := by
  have h := decodeUtf8_flatMap s.data []
  simpa [utf8Bytes, stringToCodepoints, decodeUtf8_nil] using h

theorem encodeUint_length (v n : Nat) : (encodeUint v n).length = n := by
  simp [encodeUint]

theorem parseSnakeGo_snake_step (cell : Cell) (chunk : List Nat)
    (h : ∀ b ∈ chunk, b < 256) (refs : List Cell) (acc : List Nat) :
    parseSnakeGo cell (.mk (byteToBits 0 ++ chunk.flatMap byteToBits) refs) acc
      = match refs with
        | r :: _ => parseSnakeGo cell r (acc ++ decodeUtf8 chunk)
        | [] => .ok (acc ++ decodeUtf8 chunk) := by
  have hlen : (byteToBits 0).length = 8 := rfl
  have htake : (byteToBits 0 ++ chunk.flatMap byteToBits).take 8 = byteToBits 0 := by
    rw [show (8 : Nat) = (byteToBits 0).length from rfl, List.take_left]
  have hdrop : (byteToBits 0 ++ chunk.flatMap byteToBits).drop 8 = chunk.flatMap byteToBits := by
    rw [show (8 : Nat) = (byteToBits 0).length from rfl, List.drop_left]
  rw [parseSnakeGo.eq_def]
  simp only []
  rw [if_neg (by rw [List.length_append, hlen]; omega), htake, hdrop,
    if_pos (show bitsToNat (byteToBits 0) = 0 by decide), bitsToBytes_chunk chunk h]

theorem parseSnakeGo_chunks (cell : Cell) (chunks : List (List Nat))
    (h : ∀ ch ∈ chunks, ∀ b ∈ ch, b < 256) :
    ∀ acc, parseSnakeGo cell (snakeCellOfChunks chunks) acc
      = .ok (acc ++ (chunks.map decodeUtf8).flatten) := by
  induction chunks with
  | nil =>
    intro acc
    have hstep := parseSnakeGo_snake_step cell [] (by simp) [] acc
    simp only [List.flatMap_nil, List.append_nil] at hstep
    simpa [snakeCellOfChunks, decodeUtf8_nil] using hstep
  | cons ch rest ih =>
    intro acc
    have hch : ∀ b ∈ ch, b < 256 := h ch (List.mem_cons_self ch rest)
    cases rest with
    | nil =>
      have hstep := parseSnakeGo_snake_step cell ch hch [] acc
      simp only [snakeCellOfChunks]
      rw [hstep]
      simp
    | cons ch2 rest2 =>
      have hstep := parseSnakeGo_snake_step cell ch hch
        [snakeCellOfChunks (ch2 :: rest2)] acc
      simp only [snakeCellOfChunks] at hstep ⊢
      rw [hstep, ih (fun c hc => h c (List.mem_cons_of_mem ch hc)) (acc ++ decodeUtf8 ch)]
      simp [List.append_assoc]

theorem stringToCodepoints_append (a b : String) :
    stringToCodepoints (a ++ b) = stringToCodepoints a ++ stringToCodepoints b := by
  simp [stringToCodepoints, String.data_append]

theorem stringToCodepoints_join (ts : List String) :
    stringToCodepoints (String.join ts) = (ts.map stringToCodepoints).flatten := by
  have key : ∀ (l : List String) (a : String),
      stringToCodepoints (l.foldl (fun r s => r ++ s) a)
        = stringToCodepoints a ++ (l.map stringToCodepoints).flatten := by
    intro l
    induction l with
    | nil => intro a; simp
    | cons s t ih =>
      intro a
      simp only [List.foldl_cons]
      rw [ih (a ++ s), stringToCodepoints_append]
      simp [List.append_assoc]
  have hkey := key ts ""
  simpa [String.join, stringToCodepoints] using hkey

/-- C7 amended: for every UTF-8 string split into chunks at character
boundaries (each cell holding the UTF-8 bytes of a substring behind an 0x00
prefix byte, continuing into successive single child references across N
cells), `parseSnakeData` decodes the chain back to exactly the original
string's code points; the round trip can fail only when a cell boundary
splits one character's bytes, because the decoder UTF-8-decodes each cell's
bytes separately. -/
theorem parseSnakeData_roundtrip (ts : List String) :
    parseSnakeData (snakeOfStrings ts) = .ok (stringToCodepoints (String.join ts)) := by
  unfold parseSnakeData snakeOfStrings
  rw [parseSnakeGo_chunks _ _ (fun ch hch => by
    rw [List.mem_map] at hch
    obtain ⟨t, _, rfl⟩ := hch
    exact utf8Bytes_lt_256 t)]
  congr 1
  rw [List.nil_append, List.map_map, stringToCodepoints_join]
  congr 1
  exact List.map_congr_left (fun t _ => decodeUtf8_utf8Bytes t)

/-- C7 counterexample: the two UTF-8 bytes of "é" (0xC3 0xA9) split across
two snake cells decode to two replacement characters U+FFFD, not to "é" —
each cell's bytes are UTF-8-decoded separately, so a multi-byte character
split across cells does not round-trip. -/
theorem parseSnakeData_split_char_corrupts :
    utf8Bytes "é" = [0xC3, 0xA9]
    ∧ parseSnakeData (snakeCellOfChunks [[0xC3], [0xA9]]) = .ok [0xFFFD, 0xFFFD]
    ∧ stringToCodepoints "é" = [0xE9]
    ∧ ([0xFFFD, 0xFFFD] : List Nat) ≠ [0xE9] := by
  refine ⟨by decide, ?_, by decide, by decide⟩
  simp [parseSnakeData, parseSnakeGo, snakeCellOfChunks, byteToBits]
  decide

/-! ## parseJettonMetadata (ton.ts lines 871-936)

`sha256key` abstracts `sha256ToBigInt` (the node:crypto hash of the TEP-64
attribute name), and `loadDict` abstracts @ton/ton's
`slice.loadDict(Dictionary.Keys.BigUint(256), Dictionary.Values.Cell())`:
both are external collaborators, passed in as oracles.  JS strings are
code-point lists here; parse failures anywhere inside the try block reach
the catch, which returns the fixed defaults. -/

theorem cellSize_unfold (c : Cell) : cellSize c = 1 + cellListSize c.refs := by
  cases c
  simp [cellSize, Cell.refs]

/-- The `readBuffer` recursion behind @ton/core's `loadStringTail`: all
remaining bytes of the slice (which must be byte-aligned), concatenated with
the bytes of a single trailing reference, recursively. -/
def readBufferTail (s : Slice) : Except String (List Nat) :=
  if s.bits.length % 8 ≠ 0 then .error "Invalid string length"
  else
    match hr : s.refs with
    | [] => .ok (bitsToBytes s.bits)
    | [r] => (readBufferTail (Cell.beginParse r)).map (fun rest => bitsToBytes s.bits ++ rest)
    | _ => .error "Invalid number of refs"
termination_by cellListSize s.refs
decreasing_by
  simp only [Cell.beginParse]
  rw [hr]
  simp only [cellListSize]
  rw [cellSize_unfold r]
  omega

/-- `slice.loadStringTail()`: the concatenated bytes, UTF-8 decoded once. -/
def loadStringTailE (s : Slice) : Except String (List Nat) :=
  (readBufferTail s).map decodeUtf8

/-- JS `parseInt(str, 10)`: skip whitespace, optional sign, then leading
decimal digits; none yields NaN, modelled as `none`. -/
def parseDigits (l : List Nat) : Option Nat :=
  let ds := l.takeWhile (fun c => decide (48 ≤ c ∧ c ≤ 57))
  if ds.isEmpty then none
  else some (ds.foldl (fun a c => 10 * a + (c - 48)) 0)

def parseIntJs (cps : List Nat) : Option Int :=
  let trimmed := cps.dropWhile
    (fun c => c == 32 || c == 9 || c == 10 || c == 13 || c == 11 || c == 12)
  match trimmed with
  | 45 :: rest => (parseDigits rest).map (fun n => -(n : Int))
  | 43 :: rest => (parseDigits rest).map (fun n => (n : Int))
  | rest => (parseDigits rest).map (fun n => (n : Int))

/-- The metadata object before the defaulting lines: each field unset
(`undefined`) or holding its parsed value; for decimals the inner `none`
models NaN from `parseInt`. -/
structure MetaAcc where
  nameAcc : Option (List Nat)
  symbolAcc : Option (List Nat)
  decimalsAcc : Option (Option Int)
  descriptionAcc : Option (List Nat)
  imageAcc : Option (List Nat)
  uriAcc : Option (List Nat)
  offchainAcc : Bool

structure JettonMetadata where
  name : List Nat
  symbol : List Nat
  decimals : Option Int
  description : Option (List Nat)
  image : Option (List Nat)
  uri : Option (List Nat)
  offchain : Bool
deriving DecidableEq

def emptyMetaAcc : MetaAcc := ⟨none, none, none, none, none, none, false⟩

/-- The defaulting lines: `name = name || 'Unknown'`,
`symbol = symbol || 'UNKNOWN'` (empty strings are falsy and also default),
`decimals = decimals ?? 9` (NaN is not nullish and is kept). -/
def finalizeMetadata (acc : MetaAcc) : JettonMetadata :=
  { name :=
      match acc.nameAcc with
      | some l => if l.isEmpty then stringToCodepoints "Unknown" else l
      | none => stringToCodepoints "Unknown"
    symbol :=
      match acc.symbolAcc with
      | some l => if l.isEmpty then stringToCodepoints "UNKNOWN" else l
      | none => stringToCodepoints "UNKNOWN"
    decimals :=
      match acc.decimalsAcc with
      | some v => v
      | none => some 9
    description := acc.descriptionAcc
    image := acc.imageAcc
    uri := acc.uriAcc
    offchain := acc.offchainAcc }

def parseOptSnake : Option Cell → Except String (Option (List Nat))
  | none => .ok none
  | some c => (parseSnakeData c).map some

/-- The try-block of `parseJettonMetadata`, before the catch. -/
def parseJettonMetadataE (sha256key : String → Nat)
    (loadDict : Slice → Except String (Nat → Option Cell)) (content : Cell) :
    Except String JettonMetadata :=
  if (Cell.beginParse content).bits.length < 8 then .error "Slice: not enough bits"
  else
    let pfx8 := bitsToNat ((Cell.beginParse content).bits.take 8)
    let rest : Slice := ⟨(Cell.beginParse content).bits.drop 8, (Cell.beginParse content).refs⟩
    if pfx8 = 0 then do
      let dict ← loadDict rest
      let nameV ← parseOptSnake (dict (sha256key "name"))
      let symbolV ← parseOptSnake (dict (sha256key "symbol"))
      let decimalsV ← parseOptSnake (dict (sha256key "decimals"))
      let descriptionV ← parseOptSnake (dict (sha256key "description"))
      let imageV ← parseOptSnake (dict (sha256key "image"))
      pure (finalizeMetadata
        ⟨nameV, symbolV, decimalsV.map parseIntJs, descriptionV, imageV, none, false⟩)
    else if pfx8 = 1 then do
      let uriV ← loadStringTailE rest
      pure (finalizeMetadata ⟨none, none, none, none, none, some uriV, true⟩)
    else
      pure (finalizeMetadata emptyMetaAcc)

def defaultJettonMetadata : JettonMetadata :=
  { name := stringToCodepoints "Unknown", symbol := stringToCodepoints "UNKNOWN",
    decimals := some 9, description := none, image := none, uri := none, offchain := false }

/-- `parseJettonMetadata`: the catch block turns every parse failure into
the fixed defaults `{name:'Unknown', symbol:'UNKNOWN', decimals:9}`. -/
def parseJettonMetadata (sha256key : String → Nat)
    (loadDict : Slice → Except String (Nat → Option Cell)) (content : Cell) :
    JettonMetadata :=
  match parseJettonMetadataE sha256key loadDict content with
  | .ok m => m
  | .error _ => defaultJettonMetadata

/-- C6: a metadata content cell whose first 8-bit word is neither 0x00 nor
0x01 parses to the defaults {name:'Unknown', symbol:'UNKNOWN', decimals:9}
(and `parseJettonMetadata` is total, so nothing is thrown); and every
failure of the underlying parse degrades to the same defaults rather than
propagating. -/
theorem parseJettonMetadata_unknown_prefix_defaults
    (sha256key : String → Nat) (loadDict : Slice → Except String (Nat → Option Cell))
    (c : Cell) (h8 : 8 ≤ c.bits.length)
    (h0 : bitsToNat (c.bits.take 8) ≠ 0) (h1 : bitsToNat (c.bits.take 8) ≠ 1) :
    parseJettonMetadata sha256key loadDict c = defaultJettonMetadata
    ∧ (∀ c2 e, parseJettonMetadataE sha256key loadDict c2 = .error e →
        parseJettonMetadata sha256key loadDict c2 = defaultJettonMetadata) := by
  constructor
  · have hE : parseJettonMetadataE sha256key loadDict c
        = .ok (finalizeMetadata emptyMetaAcc) := by
      unfold parseJettonMetadataE
      simp only [Cell.beginParse]
      rw [if_neg (by omega), if_neg h0, if_neg h1]
      rfl
    unfold parseJettonMetadata
    rw [hE]
    rfl
  · intro c2 e he
    unfold parseJettonMetadata
    rw [he]

theorem parseJettonMetadata_unknown_prefix_defaults_witness :
    parseJettonMetadata (fun _ => 0) (fun _ => .error "no dict")
        (Cell.mk (byteToBits 2) [])
      = defaultJettonMetadata :=
  (parseJettonMetadata_unknown_prefix_defaults (fun _ => 0) (fun _ => .error "no dict")
    (Cell.mk (byteToBits 2) []) (by decide) (by decide) (by decide)).1

/-! ## buildMethodCallBody and callContractMethod (ton.ts lines 419-476, 693-761)

`toNanoE` models @ton/core's `toNano` on nonnegative decimal strings
(amounts in this service are nonnegative); `parseAddr` models
`Address.parse`, which is consulted both for typed address params and for
the legacy string classification. -/

def splitDot : List Char → List (List Char)
  | [] => [[]]
  | c :: cs =>
    let rest := splitDot cs
    if c = '.' then [] :: rest
    else
      match rest with
      | [] => [[c]]
      | w :: ws => (c :: w) :: ws

def isDigitChar (c : Char) : Bool := decide ('0' ≤ c ∧ c ≤ '9')

def digitsToNat (l : List Char) : Nat :=
  l.foldl (fun a c => 10 * a + (c.toNat - 48)) 0

/-- @ton/core `toNano` on a decimal string: at most one dot, at most nine
fraction digits, all digits otherwise; the value in nanoTON. -/
def toNanoE (s : String) : Except String Nat :=
  match splitDot s.data with
  | [whole] =>
    let w := if whole.isEmpty then ['0'] else whole
    if w.all isDigitChar then .ok (digitsToNat (w ++ List.replicate 9 '0'))
    else .error "Invalid number"
  | [whole, frac] =>
    if 9 < frac.length then .error "Invalid number"
    else
      let w := if whole.isEmpty then ['0'] else whole
      let f := frac ++ List.replicate (9 - frac.length) '0'
      if (w ++ f).all isDigitChar then .ok (digitsToNat (w ++ f))
      else .error "Invalid number"
  | _ => .error "Invalid number"

/-- The closed union of `buildMethodCallBody` parameter shapes: the typed
`{type: ..., value: ...}` objects, an unrecognized typed tag, and the legacy
raw values (number, bigint, string, boolean, Cell). -/
inductive MethodParam where
  | uintP (value : Nat) (bits : Option Nat)
  | intP (value : Int) (bits : Option Nat)
  | coinsP (value : String)
  | addressP (value : String)
  | boolP (value : Bool)
  | cellP (value : Cell)
  | sliceP (value : Cell)
  | opcodeP (value : Nat)
  | unknownTyped (tag : String)
  | rawNum (value : Nat)
  | rawBig (value : Nat)
  | rawStr (value : String)
  | rawBool (value : Bool)
  | rawCell (value : Cell)

def Builder.storeIntB (b : Builder) (v : Int) (n : Nat) : Builder :=
  ⟨b.bits ++ encodeUint (v % ((2 : Int) ^ n)).toNat n, b.refs⟩

def Builder.storeSlice (b : Builder) (c : Cell) : Builder :=
  ⟨b.bits ++ c.bits, b.refs ++ c.refs⟩

/-- One arm of the parameter loop of `buildMethodCallBody`: appends the
param per its tag, or classifies a legacy value (address parse attempt,
else decimal-looking strings as coins, else raw UTF-8 bytes); the `opcode`
case and unknown tags append nothing (the latter logs a warning). -/
def appendParam (parseAddr : String → Except String Addr) (b : Builder) :
    MethodParam → Except String Builder
  | .uintP v bits => .ok (b.storeUint v (bits.getD 32))
  | .intP v bits => .ok (b.storeIntB v (bits.getD 32))
  | .coinsP v => (toNanoE v).map (fun n => b.storeCoins n)
  | .addressP v => (parseAddr v).map (fun a => b.storeAddress a)
  | .boolP v => .ok (b.storeBit v)
  | .cellP c => .ok (b.storeRef c)
  | .sliceP c => .ok (b.storeSlice c)
  | .opcodeP _ => .ok b
  | .unknownTyped _ => .ok b
  | .rawNum v => .ok (b.storeUint v 32)
  | .rawBig v => .ok (b.storeUint v 64)
  | .rawStr v =>
    match parseAddr v with
    | .ok a => .ok (b.storeAddress a)
    | .error _ =>
      if v.data.contains '.' || (!v.data.isEmpty && v.data.all isDigitChar) then
        (toNanoE v).map (fun n => b.storeCoins n)
      else .ok (b.storeBits (utf8Bytes v))
  | .rawBool v => .ok (b.storeBit v)
  | .rawCell c => .ok (b.storeRef c)

/-- `buildMethodCallBody(method, params, customOpcode?)`: the resolved
32-bit opcode, the 64-bit query id (`queryId` stands for `Date.now()`),
then each parameter in order. -/
def buildMethodCallBody (parseAddr : String → Except String Addr) (method : String)
    (params : List MethodParam) (customOpcode : Option Nat) (queryId : Nat) :
    Except String Cell := do
  let b0 := (beginCellB.storeUint (methodToOpcode method customOpcode) 32).storeUint queryId 64
  let bf ← params.foldlM (appendParam parseAddr) b0
  pure bf.endCell

inductive StackOut where
  | single (v : String)
  | multi (vs : List String)
deriving DecidableEq

/-- `parseStackValue`: a one-element stack collapses to the value itself,
otherwise the indexed record of formatted values. -/
def parseStackValue (stack : List String) : StackOut :=
  match stack with
  | [v] => .single v
  | vs => .multi vs

structure ContractCallParams where
  address : String
  method : String
  params : Option (List MethodParam)
  amount : Option String
  gasLimit : Option Nat

structure ContractCallResult where
  success : Bool
  result : Option StackOut
  gasUsed : Option Nat
  error : Option String
  txHash : Option String
deriving DecidableEq

/-- The chain collaborators `callContractMethod` consults: `Address.parse`,
`client.runMethod` (returning the formatted stack and `gas_used`), the
wallet contract's seqno, the submission outcome, the polling environment of
`waitForTransaction`, and the `Date.now()` query id. -/
structure ChainEnv where
  parseAddress : String → Except String Addr
  runMethod : Addr → String → List MethodParam → Except String (List String × Nat)
  getSeqno : Nat
  sendTransfer : Except String Unit
  polls : Nat → Nat × List String
  queryId : Nat

/-- JS falsiness of an optional string: absent or empty. -/
def isFalsyStr : Option String → Bool
  | none => true
  | some s => s == ""

/-- The try-block of `callContractMethod`: parse the address; with no
(falsy) amount and no params, a read-only `runMethod` invocation that never
touches the wallet; otherwise the wallet precondition, then body build,
submission and confirmation polling. -/
def callContractMethodE (env : ChainEnv) (wallet : Option Addr)
    (p : ContractCallParams) : Except String ContractCallResult := do
  let contractAddress ← env.parseAddress p.address
  if isFalsyStr p.amount && (p.params.getD []).isEmpty then
    let r ← env.runMethod contractAddress p.method (p.params.getD [])
    pure ⟨true, some (parseStackValue r.1), some r.2, none, none⟩
  else
    match wallet with
    | none => .error "Wallet not initialized for state-changing calls"
    | some _ => do
      let _body ← buildMethodCallBody env.parseAddress p.method (p.params.getD []) none
        env.queryId
      let _amountNano ← toNanoE (match p.amount with
        | some a => if a == "" then "0.1" else a
        | none => "0.1")
      env.sendTransfer
      let txHash ← waitForTransaction env.getSeqno 30 env.polls
      pure ⟨true, none, p.gasLimit, none, some txHash⟩

/-- `callContractMethod`: the catch turns every thrown error into a
returned `{success: false, error: message}` result. -/
def callContractMethod (env : ChainEnv) (wallet : Option Addr)
    (p : ContractCallParams) : ContractCallResult :=
  match callContractMethodE env wallet p with
  | .ok r => r
  | .error e => ⟨false, none, none, some e, none⟩

/-- C9 counterexample: with params supplied (state-changing path) and no
initialized wallet, `callContractMethod` does not throw to the caller: it
returns a failure result `{success: false, error: "Wallet not initialized
for state-changing calls"}` — the internal throw is caught and converted
into an error-carrying return value, and the message differs from the
claimed verbatim "wallet not initialized". -/
theorem callContractMethod_no_wallet_returns_result :
    callContractMethod
        ⟨fun _ => .ok ⟨0, 0⟩, fun _ _ _ => .error "no rpc", 0, .error "no rpc",
          fun _ => (0, []), 0⟩
        none
        ⟨"EQC", "transfer", some [.boolP true], none, none⟩
      = ⟨false, none, none, some "Wallet not initialized for state-changing calls", none⟩ := by
  rfl

/-- C9 amended: with no (falsy) amount and no params, `callContractMethod`
performs a read-only invocation whose outcome never depends on the wallet,
and succeeds without any initialized wallet whenever the address parses and
the read-only call answers; in the state-changing path (amount or params
supplied, address parsing fine), an uninitialized wallet short-circuits the
call before any body build, submission or polling, and is reported to the
caller as a returned failure result carrying success = false and the
verbatim message "Wallet not initialized for state-changing calls" in the
error field (the surrounding catch converts the throw into this return
value), rather than being retried. -/
theorem callContractMethod_wallet_precondition (env : ChainEnv) (p : ContractCallParams) :
    ((isFalsyStr p.amount && (p.params.getD []).isEmpty) = true →
      ∀ w1 w2, callContractMethod env w1 p = callContractMethod env w2 p)
    ∧ ((isFalsyStr p.amount && (p.params.getD []).isEmpty) = true →
      ∀ a r, env.parseAddress p.address = .ok a →
        env.runMethod a p.method (p.params.getD []) = .ok r →
        callContractMethod env none p
          = ⟨true, some (parseStackValue r.1), some r.2, none, none⟩)
    ∧ (¬ (isFalsyStr p.amount && (p.params.getD []).isEmpty) = true →
      ∀ a, env.parseAddress p.address = .ok a →
        callContractMethod env none p
          = ⟨false, none, none, some "Wallet not initialized for state-changing calls", none⟩) := by
  refine ⟨fun hro w1 w2 => ?_, fun hro a r hpa hrm => ?_, fun hsc a hpa => ?_⟩
  · unfold callContractMethod callContractMethodE
    cases env.parseAddress p.address with
    | error e => rfl
    | ok a => simp [hro]
  · unfold callContractMethod callContractMethodE
    rw [hpa]
    simp [hro, hrm, Bind.bind, Except.bind, Functor.map, Except.map]
    rfl
  · unfold callContractMethod callContractMethodE
    rw [hpa]
    simp [hsc, Bind.bind, Except.bind]

theorem callContractMethod_wallet_precondition_witness :
    callContractMethod
        ⟨fun _ => .ok ⟨0, 5⟩, fun _ _ _ => .ok (["42"], 7), 0, .error "no rpc",
          fun _ => (0, []), 0⟩
        none
        ⟨"EQx", "get_data", none, none, none⟩
      = ⟨true, some (.single "42"), some 7, none, none⟩ :=
  (callContractMethod_wallet_precondition
    ⟨fun _ => .ok ⟨0, 5⟩, fun _ _ _ => .ok (["42"], 7), 0, .error "no rpc",
      fun _ => (0, []), 0⟩
    ⟨"EQx", "get_data", none, none, none⟩).2.1 (by decide) ⟨0, 5⟩ (["42"], 7) rfl rfl
